import Mathlib

/-!
Shallow embedding of the reminder scheduling core of the rsl_siege_bot
repository: the calendar cadence policy (`src/clan/calendar.py`), the
sent-state ledger (`src/clan/reminder_sent_store.py`), the reminder
eligibility and delivery logic (`src/clan/reminder.py` and the single-day
variant in `src/clan/clan_reminders.py`), and the daily tick driven by
`daily_callback_template` / `on_clock`.

Python dictionaries are embedded as association lists with unique keys
(first-occurrence lookup); Python exceptions are embedded as `Except`
results or as an error component carried next to the (unchanged) state;
the ambient clock (`datetime.now`) is an explicit `nowHour` parameter.
-/

set_option autoImplicit false

namespace SiegeBot

/-- First-occurrence lookup in an association list; embeds Python
`dict.get` (dictionary keys are unique, so first occurrence is the
occurrence). -/
def lookupA {α β : Type} [DecidableEq α] : List (α × β) → α → Option β
  | [], _ => none
  | (k, v) :: rest, a => if k = a then some v else lookupA rest a

/-- Key-replacing insertion: embeds Python `dict` assignment `d[a] = b`
(replace in place when `a` is present, append otherwise). -/
def setA {α β : Type} [DecidableEq α] : List (α × β) → α → β → List (α × β)
  | [], a, b => [(a, b)]
  | (k, v) :: rest, a, b => if k = a then (a, b) :: rest else (k, v) :: setA rest a b

/-- Removal of the first binding of a key: embeds Python `del d[a]`. -/
def eraseA {α β : Type} [DecidableEq α] : List (α × β) → α → List (α × β)
  | [], _ => []
  | (k, v) :: rest, a => if k = a then rest else (k, v) :: eraseA rest a

/-- The keys of an association list. -/
def keysA {α β : Type} (l : List (α × β)) : List α :=
  l.map Prod.fst

/-- The `Event` enum of `src/clan/events.py`. -/
inductive Event : Type
  | SIEGE
  | HYDRA_CLASH
  | CHIMERA_CLASH
deriving DecidableEq

/-- `Event.name` as Python exposes it on the enum member. -/
def Event.name : Event → String
  | .SIEGE => "SIEGE"
  | .HYDRA_CLASH => "HYDRA_CLASH"
  | .CHIMERA_CLASH => "CHIMERA_CLASH"

/-- A calendar date, embedded through the three observations the core
reads from a Python `datetime.date`: `weekday()` (0 = Monday .. 6 =
Sunday), `isocalendar().week`, and `str(day)` (the ISO date string). -/
structure Date where
  weekday : Nat
  isoWeek : Int
  iso : String
deriving DecidableEq

/-- The `Calendar` of `src/clan/calendar.py`: per-event frequency strings
and per-event biweekly start weeks. -/
structure Calendar where
  event_frequencies : List (Event × String)
  start_weeks : List (Event × Int)
deriving DecidableEq

/-- `Calendar.is_event_week` (src/clan/calendar.py lines 43-53): a missing
frequency entry defaults to the string weekly; weekly is always active;
biweekly requires a registered start week and is active iff
`(current_week - start_week) % 2 == 0`; any other frequency string raises
`ValueError`. -/
def Calendar.is_event_week (c : Calendar) (event : Event) (date : Date) : Except String Bool :=
  let frequency := (lookupA c.event_frequencies event).getD "weekly"
  if frequency = "weekly" then
    .ok true
  else if frequency = "biweekly" then
    match lookupA c.start_weeks event with
    | none => .error ("start_week must be set for biweekly event: " ++ event.name)
    | some start_week => .ok ((date.isoWeek - start_week) % 2 == 0)
  else
    .error ("Unsupported frequency: " ++ frequency ++ " for event: " ++ event.name)

/-- The in-memory data of `ReminderSentStore`
(src/clan/reminder_sent_store.py): guild id -> (reminder type -> last
sent day), a JSON object of objects, embedded as nested association
lists. -/
abbrev SentData : Type := List (String × List (String × String))

/-- `ReminderSentStore.get` (lines 50-52):
`data.get(guild_id, \x7b\x7d).get(reminder_type)`. -/
def sentGet (d : SentData) (g e : String) : Option String :=
  lookupA ((lookupA d g).getD []) e

/-- `ReminderSentStore.set` (lines 54-59): create the guild entry when
absent, then assign `data[guild_id][reminder_type] = value`. -/
def sentSet (d : SentData) (g e v : String) : SentData :=
  setA d g (setA ((lookupA d g).getD []) e v)

/-- `ReminderSentStore.clear` (lines 61-67): when both keys are present,
delete the reminder entry, and delete the guild entry too when its
mapping became empty; otherwise leave the store untouched. -/
def sentClear (d : SentData) (g e : String) : SentData :=
  match lookupA d g with
  | none => d
  | some inner =>
    if (lookupA inner e).isSome then
      let inner2 := eraseA inner e
      if inner2 = [] then eraseA d g else setA d g inner2
    else d

/-- `ReminderSentStore.clear_all` (lines 69-72). -/
def sentClearAll (_ : SentData) : SentData :=
  []

/-- One mutating operation on the sent-state store. -/
inductive SentOp : Type
  | set (g e v : String)
  | clear (g e : String)
  | clearAll

/-- Apply one store operation. -/
def applySentOp (d : SentData) : SentOp → SentData
  | .set g e v => sentSet d g e v
  | .clear g e => sentClear d g e
  | .clearAll => sentClearAll d

/-- Apply a finite sequence of store operations, left to right. -/
def applySentOps (d : SentData) (ops : List SentOp) : SentData :=
  ops.foldl applySentOp d

/-- Well-formedness every Python dict state enjoys by construction:
outer keys are distinct and each inner mapping has distinct keys. -/
abbrev SentWF (d : SentData) : Prop :=
  (keysA d).Nodup ∧ ∀ p ∈ d, (keysA p.2).Nodup

/-- The implicit structural invariant of the store: no guild key is left
mapped to an empty inner mapping. -/
abbrev innersNonempty (d : SentData) : Prop :=
  ∀ p ∈ d, p.2 ≠ []

/-- The `Reminder` of `src/clan/reminder.py` (multi-day variant). The
Discord client is embedded through the only attribute the core reads,
`guild_id`; the bound delivery capability `send_func` is embedded as
`none` (not bound) or `some outcome`, where `outcome` is what one call
to it produces (normal return or a raised exception message). -/
structure Rem where
  event_type : Event
  reminder_days : List Nat
  calendar : Option Calendar
  guild_id : String
  send_outcome : Option (Except String Unit)
  utc_time : Option Nat

/-- `Reminder.reminder_number` (src/clan/reminder.py lines 88-97):
1-based first index of `day.weekday()` in `reminder_days`, or -1. -/
def Rem.reminder_number (r : Rem) (day : Date) : Int :=
  if day.weekday ∈ r.reminder_days then
    ((r.reminder_days.indexOf day.weekday : Nat) : Int) + 1
  else
    -1

/-- The three gates of `Reminder.should_send` that follow the calendar
check (src/clan/reminder.py lines 111-129), in source order: not already
sent today, today is a configured weekday, and the current UTC hour has
reached the configured hour when one is configured. -/
def Rem.gates (r : Rem) (st : SentData) (day : Date) (nowHour : Nat) : Bool :=
  if sentGet st r.guild_id r.event_type.name = some day.iso then false
  else if day.weekday ∉ r.reminder_days then false
  else
    match r.utc_time with
    | some hour => if nowHour < hour then false else true
    | none => true

/-- `Reminder.should_send` (src/clan/reminder.py lines 99-129): when a
calendar is attached its `is_event_week` runs first (propagating any
exception; an inactive week short-circuits to False), then the remaining
gates run in source order. -/
def Rem.should_send (r : Rem) (st : SentData) (day : Date) (nowHour : Nat) :
    Except String Bool :=
  match r.calendar with
  | none => .ok (r.gates st day nowHour)
  | some cal =>
    match cal.is_event_week r.event_type day with
    | .error m => .error m
    | .ok active => if active then .ok (r.gates st day nowHour) else .ok false

/-- `Reminder.send` (src/clan/reminder.py lines 131-147), in state-passing
style: the returned store is the mutable ledger after the call and the
`Option String` is the raised exception, if any. With no bound capability
a `ValueError` is raised; an exception from the capability propagates;
only after the capability returns normally is
`sent_store.set(guild_id, event_name, str(day))` executed. -/
def Rem.send (r : Rem) (st : SentData) (day : Date) : SentData × Option String :=
  match r.send_outcome with
  | none => (st, some ("No send function defined for reminder " ++ r.event_type.name))
  | some (.error m) => (st, some m)
  | some (.ok _) => (sentSet st r.guild_id r.event_type.name day.iso, none)

/-- The single-day `Reminder` of `src/clan/clan_reminders.py` (the class
the daily tick drives). `guild` is `none` when no Discord client was
attached, in which case reading `discord_client.guild_id` raises. -/
structure DReminder where
  event_name : String
  reminder_day : Nat
  guild : Option String
  send_outcome : Option (Except String Unit)
  utc_time : Option Nat

/-- `Reminder.should_send` of src/clan/clan_reminders.py (lines 63-89):
reads `guild_id` (raising when no client is attached), then checks the
sent ledger, the single configured weekday, and the optional hour gate. -/
def DReminder.should_send (r : DReminder) (st : SentData) (day : Date) (nowHour : Nat) :
    Except String Bool :=
  match r.guild with
  | none => .error ("AttributeError: no discord client attached to reminder " ++ r.event_name)
  | some g =>
    if sentGet st g r.event_name = some day.iso then .ok false
    else if day.weekday ≠ r.reminder_day then .ok false
    else
      match r.utc_time with
      | some hour => if nowHour < hour then .ok false else .ok true
      | none => .ok true

/-- `Reminder.send` of src/clan/clan_reminders.py (lines 91-105) in
state-passing style: unbound capability raises; a capability exception
propagates; on normal return the ledger is written (reading `guild_id`,
which raises when no client is attached). -/
def DReminder.send (r : DReminder) (st : SentData) (day : Date) : SentData × Option String :=
  match r.send_outcome with
  | none => (st, some ("No send function defined for reminder " ++ r.event_name))
  | some (.error m) => (st, some m)
  | some (.ok _) =>
    match r.guild with
    | none => (st, some ("AttributeError: no discord client attached to reminder " ++ r.event_name))
    | some g => (sentSet st g r.event_name day.iso, none)

/-- `Reminder.clear` of src/clan/clan_reminders.py (lines 57-61). -/
def DReminder.clearSent (r : DReminder) (st : SentData) : SentData × Option String :=
  match r.guild with
  | none => (st, some ("AttributeError: no discord client attached to reminder " ++ r.event_name))
  | some g => (sentClear st g r.event_name, none)

/-- The Sunday loop of `daily_callback_template` (lines 183-186): clear
each reminder in order; an exception aborts the loop, leaving the clears
already performed in place. -/
def runClears : List DReminder → SentData → SentData × Option String
  | [], st => (st, none)
  | r :: rest, st =>
    match r.clearSent st with
    | (st2, none) => runClears rest st2
    | (st2, some m) => (st2, some m)

/-- The send loop of `daily_callback_template` (lines 187-189): in order,
evaluate `should_send` and, when eligible, `send`. There is no
per-reminder exception handler: the first exception (from either call)
aborts the loop. Returns the store, the names delivered in this tick,
and the escaping exception, if any. -/
def runSends : List DReminder → Date → Nat → SentData → SentData × List String × Option String
  | [], _, _, st => (st, [], none)
  | r :: rest, day, nowHour, st =>
    match r.should_send st day nowHour with
    | .error m => (st, [], some m)
    | .ok false => runSends rest day nowHour st
    | .ok true =>
      match r.send st day with
      | (st2, some m) => (st2, [], some m)
      | (st2, none) =>
        match runSends rest day nowHour st2 with
        | (st3, ds, err) => (st3, r.event_name :: ds, err)

/-- `daily_callback_template` (src/clan/clan_reminders.py lines 175-189):
on Sunday first clear every reminder, then run the send loop. Any
exception escapes to the caller (`on_clock`). -/
def daily_callback_template (rs : List DReminder) (day : Date) (nowHour : Nat)
    (st : SentData) : SentData × List String × Option String :=
  if day.weekday = 6 then
    match runClears rs st with
    | (st2, some m) => (st2, [], some m)
    | (st2, none) => runSends rs day nowHour st2
  else
    runSends rs day nowHour st

/-- One tick of the `on_clock` loop (src/clan/clan_reminders.py lines
260-278): the callback runs under a handler that catches and logs every
non-cancellation exception, so the loop always proceeds to the next tick
with whatever state the callback left behind. -/
def on_clock_tick (rs : List DReminder) (day : Date) (nowHour : Nat)
    (st : SentData) : SentData :=
  (daily_callback_template rs day nowHour st).1

/-- A Friday used as a concrete test date (2025-06-20, ISO week 25). -/
def friday0 : Date :=
  ⟨4, 25, "2025-06-20"⟩

/-- A Tuesday used as a concrete test date (2025-06-17, ISO week 25). -/
def tuesday0 : Date :=
  ⟨1, 25, "2025-06-17"⟩

/-- A reminder whose bound capability raises on call. -/
def dremFail : DReminder :=
  ⟨"hydra", 4, some "guild1", some (.error "boom"), none⟩

/-- A reminder whose bound capability succeeds. -/
def dremOk : DReminder :=
  ⟨"chimera", 4, some "guild1", some (.ok ()), none⟩

/-- A reminder with no Discord client attached. -/
def dremNoGuild : DReminder :=
  ⟨"siege", 4, none, some (.ok ()), none⟩

/-- A Sunday used as a concrete test date (2025-06-22, ISO week 25). -/
def sunday0 : Date :=
  ⟨6, 25, "2025-06-22"⟩

/-- A Sunday-scheduled reminder whose bound capability raises on call. -/
def dremSundayFail : DReminder :=
  ⟨"hydra", 6, some "guild1", some (.error "boom"), none⟩

/-- A Sunday-scheduled reminder whose bound capability succeeds. -/
def dremSundayOk : DReminder :=
  ⟨"chimera", 6, some "guild1", some (.ok ()), none⟩

/-- A concrete multi-day reminder: siege on Friday and Saturday, hour
gate 7, weekly calendar. -/
def remSiege : Rem :=
  ⟨Event.SIEGE, [4, 5], some ⟨[(Event.SIEGE, "weekly")], []⟩, "guild1", some (.ok ()), some 7⟩

/-- A concrete reminder with no bound capability. -/
def remNoCap : Rem :=
  ⟨Event.SIEGE, [4, 5], none, "guild1", none, none⟩

/-- A concrete reminder with days Monday and Thursday, used for the
reminder-number examples. -/
def remMonThu : Rem :=
  ⟨Event.HYDRA_CLASH, [0, 3], none, "guild1", some (.ok ()), none⟩

/-- A concrete calendar: siege weekly, hydra biweekly starting week 25. -/
def calW : Calendar :=
  ⟨[(Event.SIEGE, "weekly"), (Event.HYDRA_CLASH, "biweekly")], [(Event.HYDRA_CLASH, 25)]⟩

theorem keysA_cons {α β : Type} (k : α) (v : β) (rest : List (α × β)) :
    keysA ((k, v) :: rest) = k :: keysA rest :=
  rfl

theorem lookupA_setA_self {α β : Type} [DecidableEq α] (l : List (α × β)) (a : α) (b : β) :
    lookupA (setA l a b) a = some b := by
  induction l with
  | nil => simp [setA, lookupA]
  | cons p rest ih =>
    obtain ⟨k, v⟩ := p
    by_cases h : k = a
    · subst h
      simp [setA, lookupA]
    · simp [setA, lookupA, h, ih]

theorem lookupA_setA_ne {α β : Type} [DecidableEq α] (l : List (α × β)) (a : α) (b : β)
    (a2 : α) (h : a2 ≠ a) : lookupA (setA l a b) a2 = lookupA l a2 := by
  induction l with
  | nil => simp [setA, lookupA, Ne.symm h]
  | cons p rest ih =>
    obtain ⟨k, v⟩ := p
    by_cases hk : k = a
    · subst hk
      simp [setA, lookupA, Ne.symm h]
    · by_cases hk2 : k = a2
      · subst hk2
        simp [setA, lookupA, hk]
      · simp [setA, lookupA, hk, hk2, ih]

theorem lookupA_eraseA_ne {α β : Type} [DecidableEq α] (l : List (α × β)) (a a2 : α)
    (h : a2 ≠ a) : lookupA (eraseA l a) a2 = lookupA l a2 := by
  induction l with
  | nil => simp [eraseA]
  | cons p rest ih =>
    obtain ⟨k, v⟩ := p
    by_cases hk : k = a
    · subst hk
      simp [eraseA, lookupA, Ne.symm h]
    · by_cases hk2 : k = a2
      · subst hk2
        simp [eraseA, lookupA, hk]
      · simp [eraseA, lookupA, hk, hk2, ih]

theorem lookupA_mem {α β : Type} [DecidableEq α] {l : List (α × β)} {a : α} {b : β}
    (h : lookupA l a = some b) : (a, b) ∈ l := by
  induction l with
  | nil => simp [lookupA] at h
  | cons p rest ih =>
    obtain ⟨k, v⟩ := p
    by_cases hk : k = a
    · subst hk
      simp [lookupA] at h
      subst h
      exact List.mem_cons_self _ _
    · simp [lookupA, hk] at h
      exact List.mem_cons_of_mem _ (ih h)

theorem lookupA_eq_none_of_nm {α β : Type} [DecidableEq α] {l : List (α × β)} {a : α}
    (h : a ∉ keysA l) : lookupA l a = none := by
  induction l with
  | nil => simp [lookupA]
  | cons p rest ih =>
    obtain ⟨k, v⟩ := p
    rw [keysA_cons, List.mem_cons] at h
    push_neg at h
    simp only [lookupA, if_neg (Ne.symm h.1)]
    exact ih h.2

theorem mem_keysA_setA {α β : Type} [DecidableEq α] {l : List (α × β)} {a : α} {b : β}
    {x : α} (h : x ∈ keysA (setA l a b)) : x ∈ keysA l ∨ x = a := by
  induction l with
  | nil => simpa [setA, keysA] using h
  | cons p rest ih =>
    obtain ⟨k, v⟩ := p
    by_cases hk : k = a
    · subst hk
      refine Or.inl ?_
      rw [setA, if_pos rfl] at h
      rw [keysA_cons, List.mem_cons] at h ⊢
      exact h
    · rw [setA] at h
      simp only [if_neg hk, keysA_cons, List.mem_cons] at h
      rcases h with h | h
      · exact Or.inl (by simp [keysA_cons, h])
      · rcases ih h with h2 | h2
        · exact Or.inl (by simp [keysA_cons, h2])
        · exact Or.inr h2

theorem nodup_keysA_setA {α β : Type} [DecidableEq α] {l : List (α × β)} (a : α) (b : β)
    (h : (keysA l).Nodup) : (keysA (setA l a b)).Nodup := by
  induction l with
  | nil => simp [setA, keysA]
  | cons p rest ih =>
    obtain ⟨k, v⟩ := p
    rw [keysA_cons, List.nodup_cons] at h
    by_cases hk : k = a
    · subst hk
      rw [setA, if_pos rfl, keysA_cons, List.nodup_cons]
      exact h
    · rw [setA, if_neg hk, keysA_cons, List.nodup_cons]
      refine ⟨fun hmem => ?_, ih h.2⟩
      rcases mem_keysA_setA hmem with h2 | h2
      · exact h.1 h2
      · exact hk h2

theorem lookupA_eraseA_self {α β : Type} [DecidableEq α] {l : List (α × β)} (a : α)
    (h : (keysA l).Nodup) : lookupA (eraseA l a) a = none := by
  induction l with
  | nil => simp [eraseA, lookupA]
  | cons p rest ih =>
    obtain ⟨k, v⟩ := p
    rw [keysA_cons, List.nodup_cons] at h
    by_cases hk : k = a
    · subst hk
      rw [eraseA, if_pos rfl]
      exact lookupA_eq_none_of_nm h.1
    · rw [eraseA, if_neg hk, lookupA, if_neg hk]
      exact ih h.2

theorem setA_ne_nil {α β : Type} [DecidableEq α] (l : List (α × β)) (a : α) (b : β) :
    setA l a b ≠ [] := by
  cases l with
  | nil => simp [setA]
  | cons p rest =>
    obtain ⟨k, v⟩ := p
    by_cases hk : k = a
    · simp [setA, hk]
    · simp [setA, hk]

theorem mem_setA {α β : Type} [DecidableEq α] {l : List (α × β)} {a : α} {b : β}
    {p : α × β} (h : p ∈ setA l a b) : p ∈ l ∨ p = (a, b) := by
  induction l with
  | nil => simpa [setA] using h
  | cons q rest ih =>
    obtain ⟨k, v⟩ := q
    by_cases hk : k = a
    · subst hk
      rw [setA, if_pos rfl, List.mem_cons] at h
      rcases h with h | h
      · exact Or.inr h
      · exact Or.inl (List.mem_cons_of_mem _ h)
    · rw [setA, if_neg hk, List.mem_cons] at h
      rcases h with h | h
      · exact Or.inl (by simp [h])
      · rcases ih h with h2 | h2
        · exact Or.inl (List.mem_cons_of_mem _ h2)
        · exact Or.inr h2

theorem mem_eraseA {α β : Type} [DecidableEq α] {l : List (α × β)} {a : α}
    {p : α × β} (h : p ∈ eraseA l a) : p ∈ l := by
  induction l with
  | nil => simp [eraseA] at h
  | cons q rest ih =>
    obtain ⟨k, v⟩ := q
    by_cases hk : k = a
    · subst hk
      rw [eraseA, if_pos rfl] at h
      exact List.mem_cons_of_mem _ h
    · rw [eraseA, if_neg hk, List.mem_cons] at h
      rcases h with h | h
      · exact h ▸ List.mem_cons_self _ _
      · exact List.mem_cons_of_mem _ (ih h)

theorem eraseA_eq_nil {α β : Type} [DecidableEq α] {l : List (α × β)} {a : α}
    (h : eraseA l a = []) : l = [] ∨ ∃ v, l = [(a, v)] := by
  cases l with
  | nil => exact Or.inl rfl
  | cons q rest =>
    obtain ⟨k, v⟩ := q
    by_cases hk : k = a
    · subst hk
      rw [eraseA, if_pos rfl] at h
      exact Or.inr ⟨v, by rw [h]⟩
    · rw [eraseA, if_neg hk] at h
      exact absurd h (List.cons_ne_nil _ _)

theorem sentGet_sentSet_self (d : SentData) (g e v : String) :
    sentGet (sentSet d g e v) g e = some v := by
  unfold sentGet sentSet
  rw [lookupA_setA_self]
  simp only [Option.getD_some]
  exact lookupA_setA_self _ _ _

theorem sentWF_inner_nodup {d : SentData} (g : String) (hwf : SentWF d) :
    (keysA ((lookupA d g).getD [])).Nodup := by
  cases hl : lookupA d g with
  | none => simp [keysA]
  | some inner =>
    simp only [Option.getD_some]
    exact hwf.2 _ (lookupA_mem hl)

/-- Claim C8: sent-state store round trip. For every well-formed store
state, guild, event and date string, `set` followed by `clear` on the
same key leaves `get` returning `none`, and immediately after `set`,
`get` returns the stored value. -/
theorem C8_store_roundtrip (d : SentData) (g e v : String) (hwf : SentWF d) :
    sentGet (sentSet d g e v) g e = some v ∧
    sentGet (sentClear (sentSet d g e v) g e) g e = none := by
  refine ⟨sentGet_sentSet_self d g e v, ?_⟩
  have hI : sentSet d g e v = setA d g (setA ((lookupA d g).getD []) e v) := rfl
  have hlook : lookupA (sentSet d g e v) g = some (setA ((lookupA d g).getD []) e v) := by
    rw [hI]
    exact lookupA_setA_self _ _ _
  have hIe : lookupA (setA ((lookupA d g).getD []) e v) e = some v :=
    lookupA_setA_self _ _ _
  have hInodup : (keysA (setA ((lookupA d g).getD []) e v)).Nodup :=
    nodup_keysA_setA _ _ (sentWF_inner_nodup g hwf)
  have houter : (keysA (sentSet d g e v)).Nodup := by
    rw [hI]
    exact nodup_keysA_setA _ _ hwf.1
  unfold sentClear
  rw [hlook]
  simp only [hIe, Option.isSome_some, if_true]
  by_cases h2 : eraseA (setA ((lookupA d g).getD []) e v) e = []
  · rw [if_pos h2]
    unfold sentGet
    rw [lookupA_eraseA_self g houter]
    simp [lookupA]
  · rw [if_neg h2]
    unfold sentGet
    rw [lookupA_setA_self]
    simp only [Option.getD_some]
    exact lookupA_eraseA_self e hInodup

/-- Closed witness for C8 at a concrete store and key. -/
theorem C8_store_roundtrip_witness :
    SentWF ([] : SentData) ∧
    (sentGet (sentSet [] "g1" "SIEGE" "2025-06-16") "g1" "SIEGE" = some "2025-06-16" ∧
     sentGet (sentClear (sentSet [] "g1" "SIEGE" "2025-06-16") "g1" "SIEGE") "g1" "SIEGE" =
       none) := by
  have hwf : SentWF ([] : SentData) := by
    constructor
    · simp [keysA]
    · intro p hp
      simp at hp
  exact ⟨hwf, C8_store_roundtrip [] "g1" "SIEGE" "2025-06-16" hwf⟩

theorem innersNonempty_sentSet {d : SentData} (h : innersNonempty d) (g e v : String) :
    innersNonempty (sentSet d g e v) := by
  intro p hp
  rcases mem_setA hp with h2 | h2
  · exact h p h2
  · rw [h2]
    exact setA_ne_nil _ _ _

theorem innersNonempty_sentClear {d : SentData} (h : innersNonempty d) (g e : String) :
    innersNonempty (sentClear d g e) := by
  intro p hp
  unfold sentClear at hp
  cases hl : lookupA d g with
  | none =>
    rw [hl] at hp
    exact h p hp
  | some inner =>
    rw [hl] at hp
    simp only at hp
    by_cases hs : (lookupA inner e).isSome = true
    · rw [if_pos hs] at hp
      by_cases h2 : eraseA inner e = []
      · rw [if_pos h2] at hp
        exact h p (mem_eraseA hp)
      · rw [if_neg h2] at hp
        rcases mem_setA hp with h3 | h3
        · exact h p h3
        · rw [h3]
          exact h2
    · rw [if_neg hs] at hp
      exact h p hp

theorem innersNonempty_applySentOp {d : SentData} (h : innersNonempty d) (op : SentOp) :
    innersNonempty (applySentOp d op) := by
  cases op with
  | set g e v => exact innersNonempty_sentSet h g e v
  | clear g e => exact innersNonempty_sentClear h g e
  | clearAll =>
    intro p hp
    simp [applySentOp, sentClearAll] at hp

theorem innersNonempty_applySentOps {d : SentData} (h : innersNonempty d)
    (ops : List SentOp) : innersNonempty (applySentOps d ops) := by
  induction ops generalizing d with
  | nil => exact h
  | cons op rest ih =>
    rw [applySentOps, List.foldl_cons]
    exact ih (innersNonempty_applySentOp h op)

/-- Claim C9: starting from the empty store, after every finite sequence
of set, clear and clear_all operations, every guild entry present in the
store maps to a non-empty event mapping. -/
theorem C9_no_empty_guild_entry (ops : List SentOp)
    (p : String × List (String × String)) (hp : p ∈ applySentOps [] ops) : p.2 ≠ [] := by
  have hbase : innersNonempty ([] : SentData) := by
    intro q hq
    simp at hq
  exact innersNonempty_applySentOps hbase ops p hp

/-- Closed witness for C9 at a concrete operation sequence. -/
theorem C9_no_empty_guild_entry_witness :
    ("g1", [("SIEGE", "2025-06-16")]) ∈
      applySentOps [] [SentOp.set "g1" "SIEGE" "2025-06-16"] ∧
    (("g1", [("SIEGE", "2025-06-16")]) :
      String × List (String × String)).2 ≠ [] := by
  have hm : ("g1", [("SIEGE", "2025-06-16")]) ∈
      applySentOps [] [SentOp.set "g1" "SIEGE" "2025-06-16"] := by
    simp [applySentOps, applySentOp, sentSet, setA, lookupA]
  exact ⟨hm, C9_no_empty_guild_entry [SentOp.set "g1" "SIEGE" "2025-06-16"] _ hm⟩

/-- Claim C10: frame property of the sent-state store. For every
well-formed store state and every key pair different from the addressed
(guild, event), `set` and `clear` leave `get` at the other key
unchanged. -/
theorem C10_store_frame (d : SentData) (g e v g2 e2 : String) (hwf : SentWF d)
    (hne : ¬(g2 = g ∧ e2 = e)) :
    sentGet (sentSet d g e v) g2 e2 = sentGet d g2 e2 ∧
    sentGet (sentClear d g e) g2 e2 = sentGet d g2 e2 := by
  constructor
  · by_cases hg : g2 = g
    · subst hg
      have he : e2 ≠ e := fun he => hne ⟨rfl, he⟩
      unfold sentGet sentSet
      rw [lookupA_setA_self]
      simp only [Option.getD_some]
      exact lookupA_setA_ne _ _ _ _ he
    · unfold sentGet sentSet
      rw [lookupA_setA_ne _ _ _ _ hg]
  · cases hl : lookupA d g with
    | none =>
      unfold sentClear
      rw [hl]
    | some inner =>
      unfold sentClear
      rw [hl]
      simp only
      by_cases hs : (lookupA inner e).isSome = true
      · rw [if_pos hs]
        by_cases h2 : eraseA inner e = []
        · rw [if_pos h2]
          by_cases hg : g2 = g
          · subst hg
            have he : e2 ≠ e := fun he => hne ⟨rfl, he⟩
            unfold sentGet
            rw [lookupA_eraseA_self _ hwf.1, hl]
            simp only [Option.getD_some, Option.getD_none]
            rcases eraseA_eq_nil h2 with h3 | ⟨w, h3⟩
            · rw [h3] at hs
              simp [lookupA] at hs
            · rw [h3]
              simp [lookupA, Ne.symm he]
          · unfold sentGet
            rw [lookupA_eraseA_ne _ _ _ hg]
        · rw [if_neg h2]
          by_cases hg : g2 = g
          · subst hg
            have he : e2 ≠ e := fun he => hne ⟨rfl, he⟩
            unfold sentGet
            rw [lookupA_setA_self, hl]
            simp only [Option.getD_some]
            exact lookupA_eraseA_ne _ _ _ he
          · unfold sentGet
            rw [lookupA_setA_ne _ _ _ _ hg]
      · rw [if_neg hs]

/-- Closed witness for C10 at a concrete store and key pair. -/
theorem C10_store_frame_witness :
    SentWF [("g1", [("SIEGE", "2025-06-10"), ("HYDRA_CLASH", "2025-06-12")])] ∧
    ¬("g1" = "g1" ∧ "HYDRA_CLASH" = "SIEGE") ∧
    (sentGet
        (sentSet [("g1", [("SIEGE", "2025-06-10"), ("HYDRA_CLASH", "2025-06-12")])]
          "g1" "SIEGE" "2025-06-16") "g1" "HYDRA_CLASH" =
      sentGet [("g1", [("SIEGE", "2025-06-10"), ("HYDRA_CLASH", "2025-06-12")])]
        "g1" "HYDRA_CLASH" ∧
     sentGet
        (sentClear [("g1", [("SIEGE", "2025-06-10"), ("HYDRA_CLASH", "2025-06-12")])]
          "g1" "SIEGE") "g1" "HYDRA_CLASH" =
      sentGet [("g1", [("SIEGE", "2025-06-10"), ("HYDRA_CLASH", "2025-06-12")])]
        "g1" "HYDRA_CLASH") := by
  have hwf : SentWF [("g1", [("SIEGE", "2025-06-10"), ("HYDRA_CLASH", "2025-06-12")])] := by
    constructor
    · simp [keysA]
    · intro p hp
      simp at hp
      rw [hp]
      simp [keysA]
  have hne : ¬("g1" = "g1" ∧ "HYDRA_CLASH" = "SIEGE") := by
    intro hcc
    exact absurd hcc.2 (by decide)
  exact ⟨hwf, hne,
    C10_store_frame [("g1", [("SIEGE", "2025-06-10"), ("HYDRA_CLASH", "2025-06-12")])]
      "g1" "SIEGE" "2025-06-16" "g1" "HYDRA_CLASH" hwf hne⟩

/-- Claim C2 counterexample: the claim says an event with no entry in the
frequency mapping fails with a configuration error for every date.
`Calendar.is_event_week` instead defaults the missing entry to weekly
and returns True: concretely, with an empty frequency mapping and the
date 2025-06-20 it returns ok true rather than failing. -/
theorem C2_unregistered_counterexample :
    Calendar.is_event_week ⟨[], []⟩ Event.SIEGE friday0 = .ok true := by
  rfl

/-- Claim C2 (amended): a BIWEEKLY event with no registered start week
fails with a configuration error for every date, and an event whose
registered frequency string is neither weekly nor biweekly fails for
every date; but an event with no entry in the frequency mapping silently
defaults to weekly and returns True. -/
theorem C2_config_error_amended (cal : Calendar) (e : Event) (d : Date) :
    (lookupA cal.event_frequencies e = none → cal.is_event_week e d = .ok true) ∧
    (lookupA cal.event_frequencies e = some "biweekly" →
      lookupA cal.start_weeks e = none →
      cal.is_event_week e d =
        .error ("start_week must be set for biweekly event: " ++ e.name)) ∧
    (∀ f, lookupA cal.event_frequencies e = some f → f ≠ "weekly" → f ≠ "biweekly" →
      cal.is_event_week e d =
        .error ("Unsupported frequency: " ++ f ++ " for event: " ++ e.name)) := by
  refine ⟨?_, ?_, ?_⟩
  · intro h
    simp [Calendar.is_event_week, h]
  · intro hf hs
    simp [Calendar.is_event_week, hf, hs]
  · intro f hf h1 h2
    simp only [Calendar.is_event_week, hf, Option.getD_some]
    rw [if_neg h1, if_neg h2]

/-- Closed witness for the amended C2 at a concrete calendar: hydra is
registered biweekly with no start week, and evaluation fails. -/
theorem C2_config_error_witness :
    Calendar.is_event_week ⟨[(Event.HYDRA_CLASH, "biweekly")], []⟩ Event.HYDRA_CLASH
      friday0 =
      .error ("start_week must be set for biweekly event: " ++ Event.HYDRA_CLASH.name) :=
  (C2_config_error_amended ⟨[(Event.HYDRA_CLASH, "biweekly")], []⟩ Event.HYDRA_CLASH
    friday0).2.1 rfl rfl

/-- Claim C5: cadence policy. An event registered weekly is active on
every date; an event registered biweekly with start week w is active on
date d exactly when `(isoweek d - w) % 2 == 0`, and the answer flips
between consecutive ISO weeks. -/
theorem C5_cadence_policy (cal : Calendar) (e : Event) (d : Date) :
    (lookupA cal.event_frequencies e = some "weekly" → cal.is_event_week e d = .ok true) ∧
    (∀ w, lookupA cal.event_frequencies e = some "biweekly" →
      lookupA cal.start_weeks e = some w →
      (cal.is_event_week e d = .ok ((d.isoWeek - w) % 2 == 0) ∧
       ∀ d2 : Date, d2.isoWeek = d.isoWeek + 1 →
         cal.is_event_week e d2 = .ok (!((d.isoWeek - w) % 2 == 0)))) := by
  constructor
  · intro h
    simp [Calendar.is_event_week, h]
  · intro w hf hs
    constructor
    · simp [Calendar.is_event_week, hf, hs]
    · intro d2 hd2
      simp only [Calendar.is_event_week, hf, hs, hd2, Option.getD_some, if_true]
      have hgoal : ((d.isoWeek + 1 - w) % 2 == 0) = (!((d.isoWeek - w) % 2 == 0)) := by
        cases hpar : ((d.isoWeek - w) % 2 == 0) <;>
          simp only [beq_iff_eq, beq_eq_false_iff_ne, ne_eq] at hpar ⊢ <;>
          simp only [Bool.not_false, Bool.not_true, beq_iff_eq, beq_eq_false_iff_ne, ne_eq] <;>
          omega
      rw [hgoal]
      rw [if_neg (by decide)]

/-- Closed witness for C5 at a concrete calendar: siege weekly, hydra
biweekly with start week 25, evaluated in ISO weeks 25 and 26. -/
theorem C5_cadence_policy_witness :
    Calendar.is_event_week calW Event.SIEGE friday0 = .ok true ∧
    Calendar.is_event_week calW Event.HYDRA_CLASH friday0 = .ok true ∧
    Calendar.is_event_week calW Event.HYDRA_CLASH ⟨0, 26, "2025-06-23"⟩ = .ok false := by
  refine ⟨(C5_cadence_policy calW Event.SIEGE friday0).1 rfl, ?_, ?_⟩
  · have h := ((C5_cadence_policy calW Event.HYDRA_CLASH friday0).2 25 rfl rfl).1
    have hb : ((friday0.isoWeek - 25) % 2 == 0) = true := by decide
    rw [hb] at h
    exact h
  · have h := ((C5_cadence_policy calW Event.HYDRA_CLASH friday0).2 25 rfl rfl).2
      ⟨0, 26, "2025-06-23"⟩ (by decide)
    have hb : (!((friday0.isoWeek - 25) % 2 == 0)) = false := by decide
    rw [hb] at h
    exact h

theorem indexOf_get_and_min {l : List Nat} {a : Nat} (h : a ∈ l) :
    l.get? (l.indexOf a) = some a ∧ ∀ j, j < l.indexOf a → l.get? j ≠ some a := by
  induction l with
  | nil => simp at h
  | cons b t ih =>
    by_cases hb : b = a
    · subst hb
      rw [List.indexOf_cons_self]
      exact ⟨rfl, fun j hj => absurd hj (Nat.not_lt_zero j)⟩
    · have ht : a ∈ t := by
        rcases List.mem_cons.1 h with h1 | h1
        · exact absurd h1.symm hb
        · exact h1
      rw [List.indexOf_cons_ne _ hb]
      constructor
      · simpa using (ih ht).1
      · intro j hj
        cases j with
        | zero =>
          simp only [List.get?, ne_eq, Option.some.injEq]
          exact hb
        | succ j2 =>
          have h2 := (ih ht).2 j2 (Nat.succ_lt_succ_iff.1 hj)
          simpa using h2

/-- Claim C7: `reminder_number(day)` returns the 1-based position of
`day.weekday()` in the weekday-offset list when present (the first index
holding the weekday, with no earlier occurrence), and -1 otherwise. -/
theorem C7_reminder_number_position (r : Rem) (day : Date) :
    (day.weekday ∉ r.reminder_days → r.reminder_number day = -1) ∧
    (day.weekday ∈ r.reminder_days →
      ∃ i : Nat, r.reminder_number day = (i : Int) + 1 ∧
        r.reminder_days.get? i = some day.weekday ∧
        ∀ j, j < i → r.reminder_days.get? j ≠ some day.weekday) := by
  constructor
  · intro h
    simp [Rem.reminder_number, h]
  · intro h
    refine ⟨r.reminder_days.indexOf day.weekday, ?_, (indexOf_get_and_min h).1,
      (indexOf_get_and_min h).2⟩
    simp [Rem.reminder_number, h]

/-- Closed witness for C7: with offsets Monday and Thursday, a Tuesday
yields the sentinel -1. -/
theorem C7_reminder_number_position_witness :
    tuesday0.weekday ∉ remMonThu.reminder_days ∧
    remMonThu.reminder_number tuesday0 = -1 := by
  have hnm : tuesday0.weekday ∉ remMonThu.reminder_days := by decide
  exact ⟨hnm, (C7_reminder_number_position remMonThu tuesday0).1 hnm⟩

/-- Claim C6: `send` raises a delivery error when no capability is bound,
leaves the ledger unchanged on any failure, and writes the ledger entry
to str(day) exactly when the delivery call returned successfully. -/
theorem C6_send_ledger_discipline (r : Rem) (st : SentData) (day : Date) :
    (r.send_outcome = none →
      r.send st day =
        (st, some ("No send function defined for reminder " ++ r.event_type.name))) ∧
    (∀ m, (r.send st day).2 = some m → (r.send st day).1 = st) ∧
    ((r.send st day).2 = none →
      (r.send st day).1 = sentSet st r.guild_id r.event_type.name day.iso ∧
      r.send_outcome = some (.ok ())) := by
  refine ⟨?_, ?_, ?_⟩
  · intro h
    simp [Rem.send, h]
  · intro m hm
    cases ho : r.send_outcome with
    | none => simp [Rem.send, ho]
    | some x =>
      cases x with
      | error m2 => simp [Rem.send, ho]
      | ok u => simp [Rem.send, ho] at hm
  · intro hn
    cases ho : r.send_outcome with
    | none => simp [Rem.send, ho] at hn
    | some x =>
      cases x with
      | error m2 => simp [Rem.send, ho] at hn
      | ok u =>
        cases u
        exact ⟨by simp [Rem.send, ho], rfl⟩

/-- Closed witness for C6: a reminder with no bound capability fails and
leaves the store untouched. -/
theorem C6_send_ledger_discipline_witness :
    remNoCap.send_outcome = none ∧
    remNoCap.send [] friday0 =
      ([], some ("No send function defined for reminder " ++ remNoCap.event_type.name)) :=
  ⟨rfl, (C6_send_ledger_discipline remNoCap [] friday0).1 rfl⟩

theorem gates_false_after_set (r : Rem) (st : SentData) (day : Date) (nowHour : Nat) :
    r.gates (sentSet st r.guild_id r.event_type.name day.iso) day nowHour = false := by
  unfold Rem.gates
  rw [if_pos (sentGet_sentSet_self st r.guild_id r.event_type.name day.iso)]

/-- Claim C3: idempotence. When `send(day)` completes successfully, the
resulting ledger makes a subsequent `should_send(day)` on the same
reminder return False (provided the calendar evaluation itself returns
rather than raising), so at most one delivery occurs per (guild, event,
day). -/
theorem C3_send_then_not_eligible (r : Rem) (st : SentData) (day : Date) (nowHour : Nat)
    (hcal : ∀ cal, r.calendar = some cal →
      ∃ b, cal.is_event_week r.event_type day = .ok b)
    (hok : (r.send st day).2 = none) :
    r.should_send (r.send st day).1 day nowHour = .ok false := by
  cases ho : r.send_outcome with
  | none => simp [Rem.send, ho] at hok
  | some x =>
    cases x with
    | error m => simp [Rem.send, ho] at hok
    | ok u =>
      have hst : (r.send st day).1 = sentSet st r.guild_id r.event_type.name day.iso := by
        simp [Rem.send, ho]
      rw [hst]
      cases hc : r.calendar with
      | none =>
        simp only [Rem.should_send, hc]
        rw [gates_false_after_set]
      | some cal =>
        rcases hcal cal hc with ⟨b, hb⟩
        simp only [Rem.should_send, hc, hb]
        cases b with
        | false => simp
        | true => simp [gates_false_after_set]

/-- Closed witness for C3 with the concrete siege reminder: delivery
succeeds, and a same-day re-check is False. -/
theorem C3_send_then_not_eligible_witness :
    (remSiege.send [] friday0).2 = none ∧
    remSiege.should_send (remSiege.send [] friday0).1 friday0 12 = .ok false := by
  have hcal : ∀ cal, remSiege.calendar = some cal →
      ∃ b, cal.is_event_week remSiege.event_type friday0 = .ok b := by
    intro cal hcc
    have h2 : some (⟨[(Event.SIEGE, "weekly")], []⟩ : Calendar) = some cal := hcc
    have h3 := Option.some.inj h2
    subst h3
    exact ⟨true, rfl⟩
  exact ⟨rfl, C3_send_then_not_eligible remSiege [] friday0 12 hcal rfl⟩

theorem gates_eq_true_iff (r : Rem) (st : SentData) (day : Date) (nowHour : Nat) :
    r.gates st day nowHour = true ↔
      (sentGet st r.guild_id r.event_type.name ≠ some day.iso ∧
       day.weekday ∈ r.reminder_days ∧
       ∀ hGate, r.utc_time = some hGate → hGate ≤ nowHour) := by
  unfold Rem.gates
  by_cases h1 : sentGet st r.guild_id r.event_type.name = some day.iso
  · rw [if_pos h1]
    constructor
    · intro hff
      exact absurd hff (by simp)
    · intro hall
      exact absurd h1 hall.1
  · rw [if_neg h1]
    by_cases h2 : day.weekday ∉ r.reminder_days
    · rw [if_pos h2]
      constructor
      · intro hff
        exact absurd hff (by simp)
      · intro hall
        exact absurd hall.2.1 h2
    · rw [if_neg h2]
      have h2b : day.weekday ∈ r.reminder_days := not_not.1 h2
      cases hu : r.utc_time with
      | none =>
        constructor
        · intro _
          refine ⟨h1, h2b, ?_⟩
          intro hGate hh
          exact absurd hh (by simp)
        · intro _
          rfl
      | some hour =>
        show (if nowHour < hour then false else true) = true ↔ _
        by_cases h3 : nowHour < hour
        · rw [if_pos h3]
          constructor
          · intro hff
            exact absurd hff (by simp)
          · intro hall
            have h4 := hall.2.2 hour rfl
            omega
        · rw [if_neg h3]
          constructor
          · intro _
            refine ⟨h1, h2b, ?_⟩
            intro hGate hh
            have h5 := Option.some.inj hh
            omega
          · intro _
            rfl

/-- Claim C4: `should_send` gate characterization. Given the calendar
evaluation returns `b`, `should_send` returns a Boolean (it does not
raise), and it returns True exactly when all four gates hold: the week is
active, the ledger entry differs from str(day), the weekday is
configured, and any configured hour gate `h` satisfies `h <= nowHour`
(so with an hour gate of 7, hours 0..6 fail and hours 7..23 pass). -/
theorem C4_should_send_characterization (r : Rem) (st : SentData) (day : Date)
    (nowHour : Nat) (cal : Calendar) (b : Bool) (hc : r.calendar = some cal)
    (hb : cal.is_event_week r.event_type day = .ok b) :
    (r.should_send st day nowHour = .ok true ∨
     r.should_send st day nowHour = .ok false) ∧
    (r.should_send st day nowHour = .ok true ↔
      (b = true ∧ sentGet st r.guild_id r.event_type.name ≠ some day.iso ∧
       day.weekday ∈ r.reminder_days ∧
       ∀ hGate, r.utc_time = some hGate → hGate ≤ nowHour)) := by
  simp only [Rem.should_send, hc, hb]
  cases b with
  | false =>
    rw [if_neg (by simp)]
    constructor
    · exact Or.inr rfl
    · constructor
      · intro hok
        exact absurd (Except.ok.inj hok) (by simp)
      · intro hall
        exact absurd hall.1 (by simp)
  | true =>
    rw [if_pos rfl]
    constructor
    · cases hg : r.gates st day nowHour
      · exact Or.inr rfl
      · exact Or.inl rfl
    · constructor
      · intro hok
        have hg : r.gates st day nowHour = true := Except.ok.inj hok
        exact ⟨rfl, (gates_eq_true_iff r st day nowHour).1 hg⟩
      · intro hall
        have hg := (gates_eq_true_iff r st day nowHour).2 hall.2
        rw [hg]

/-- Closed witness for C4: the siege reminder (days Friday and Saturday,
hour gate 7, weekly calendar) is eligible on Friday at hour 12 over the
empty store. -/
theorem C4_should_send_characterization_witness :
    remSiege.should_send [] friday0 12 = .ok true := by
  have h := (C4_should_send_characterization remSiege [] friday0 12
      ⟨[(Event.SIEGE, "weekly")], []⟩ true rfl rfl).2
  refine h.mpr ⟨rfl, by decide, by decide, ?_⟩
  intro hGate hh
  have h5 : (7 : Nat) = hGate := Option.some.inj hh
  omega

theorem runSends_append (l1 l2 : List DReminder) (day : Date) (nowHour : Nat)
    (st : SentData) :
    runSends (l1 ++ l2) day nowHour st =
      (match runSends l1 day nowHour st with
       | (st2, ds, none) =>
         match runSends l2 day nowHour st2 with
         | (st3, ds2, err) => (st3, ds ++ ds2, err)
       | (st2, ds, some m) => (st2, ds, some m)) := by
  induction l1 generalizing st with
  | nil =>
    rcases hl : runSends l2 day nowHour st with ⟨st3, ds2, err⟩
    simp [runSends, hl]
  | cons r1 t ih =>
    cases hs : r1.should_send st day nowHour with
    | error m1 => simp [runSends, hs]
    | ok b =>
      cases b with
      | false =>
        simp only [List.cons_append, runSends, hs]
        exact ih st
      | true =>
        rcases hd : r1.send st day with ⟨st2, err2⟩
        cases err2 with
        | some m2 => simp [runSends, hs, hd]
        | none =>
          rcases h1 : runSends t day nowHour st2 with ⟨st3, ds3, err3⟩
          have ih2 := ih st2
          rw [h1] at ih2
          cases err3 with
          | none =>
            rcases h2 : runSends l2 day nowHour st3 with ⟨st4, ds4, err4⟩
            simp only [h2] at ih2
            simp [runSends, hs, hd, ih2, h1, h2]
          | some m3 =>
            simp only [List.append_eq] at ih2
            simp [runSends, hs, hd, ih2, h1]

/-- Claim C1 counterexample: in a non-Sunday tick over an empty ledger,
a first reminder whose delivery raises is followed by a second, fully
eligible reminder. The claim says the second is still evaluated and
delivered in that same tick; in the code the tick records no delivery at
all, while the same second reminder alone in a tick is delivered. -/
theorem C1_tick_isolation_counterexample :
    (daily_callback_template [dremFail, dremOk] friday0 12 []).2.1 = [] ∧
    (daily_callback_template [dremOk] friday0 12 []).2.1 = ["chimera"] :=
  ⟨rfl, rfl⟩

/-- Claim C1 (amended): for every day — Sundays, where the tick first
runs the rollover clear loop (assumed here to complete without raising),
included — an exception raised during one definition's should_send
evaluation or send delivery is caught and logged only at the tick level,
by `on_clock` around the whole callback: the loop survives to the next
tick (`on_clock_tick` returns normally with the state the callback
left), but the exception aborts the remainder of the current tick, so
the definitions after the failing one are not evaluated or delivered in
that tick — only the deliveries of the preceding definitions remain.
On non-Sunday days the clears hypothesis is trivially `(st, none)`. -/
theorem C1_tick_isolation_amended (pre : List DReminder) (r : DReminder)
    (rest : List DReminder) (day : Date) (nowHour : Nat) (st stc st2 : SentData)
    (ds : List String) (m : String)
    (hclears : (if day.weekday = 6 then runClears (pre ++ r :: rest) st
      else (st, none)) = (stc, none))
    (hpre : runSends pre day nowHour stc = (st2, ds, none))
    (hfail : r.should_send st2 day nowHour = .error m ∨
      (r.should_send st2 day nowHour = .ok true ∧ r.send st2 day = (st2, some m))) :
    daily_callback_template (pre ++ r :: rest) day nowHour st = (st2, ds, some m) ∧
    on_clock_tick (pre ++ r :: rest) day nowHour st = st2 := by
  have hr : runSends (r :: rest) day nowHour st2 = (st2, [], some m) := by
    rcases hfail with h | ⟨h1, h2⟩
    · simp [runSends, h]
    · simp [runSends, h1, h2]
  have happ := runSends_append pre (r :: rest) day nowHour stc
  rw [hpre] at happ
  simp only [hr, List.append_nil] at happ
  have hmain : daily_callback_template (pre ++ r :: rest) day nowHour st =
      (st2, ds, some m) := by
    unfold daily_callback_template
    by_cases hd6 : day.weekday = 6
    · rw [if_pos hd6] at hclears
      rw [if_pos hd6, hclears]
      exact happ
    · rw [if_neg hd6] at hclears
      have hstc : st = stc := congrArg Prod.fst hclears
      rw [if_neg hd6, hstc]
      exact happ
  refine ⟨hmain, ?_⟩
  unfold on_clock_tick
  rw [hmain]

/-- Closed witness for the amended C1, on a Sunday tick: the rollover
clears complete, the failing hydra reminder then aborts the send loop,
the error is recorded for the loop-level handler, and the loop continues
with the post-clear store. -/
theorem C1_tick_isolation_amended_witness :
    (if sunday0.weekday = 6 then runClears [dremSundayFail, dremSundayOk] []
      else ([], none)) = (([] : SentData), none) ∧
    runSends [] sunday0 12 [] = (([] : SentData), [], none) ∧
    (dremSundayFail.should_send [] sunday0 12 = .ok true ∧
     dremSundayFail.send [] sunday0 = ([], some "boom")) ∧
    daily_callback_template [dremSundayFail, dremSundayOk] sunday0 12 [] =
      ([], [], some "boom") ∧
    on_clock_tick [dremSundayFail, dremSundayOk] sunday0 12 [] = [] := by
  have hclears : (if sunday0.weekday = 6 then runClears [dremSundayFail, dremSundayOk] []
      else ([], none)) = (([] : SentData), none) := rfl
  have hpre : runSends [] sunday0 12 [] = (([] : SentData), [], none) := rfl
  have h1 : dremSundayFail.should_send [] sunday0 12 = .ok true := rfl
  have h2 : dremSundayFail.send [] sunday0 = ([], some "boom") := rfl
  have hmain := C1_tick_isolation_amended [] dremSundayFail [dremSundayOk] sunday0 12
    [] [] [] [] "boom" hclears hpre (Or.inr ⟨h1, h2⟩)
  exact ⟨hclears, hpre, ⟨h1, h2⟩, hmain.1, hmain.2⟩

end SiegeBot
